import Mathlib

/-!
A verification development for the `pictocrab` image preprocessing server
(`src/main.rs`).  The Rust source is shallowly embedded below: machine
integers become `Nat` with explicit truncation where the source truncates,
the process-wide `OnceCell` configuration and the shared
`(CachedImages, CachedPaths)` pair become fields of an explicit
`ServerState`, fallible operations return `Except Failure`, and the byte
stream written to the client is returned explicitly as a `List Nat`.

External collaborators (the image codec, the HTTP client, the local file
reads for source images, the memory probe) are parameters collected in an
`Env` record, matching the contracts in the specification; the disk cache
files that the server itself writes and reads (`{dir}/{id}.bmp`) are
modelled inside `ServerState` as an association list from file path to
contents.

Rust panics (out-of-bounds indexing, `unwrap`, `slice::chunks` with chunk
size zero) are modelled as the distinguished failure `Failure.fatal`,
kept separate from ordinary `anyhow` errors (`Failure.err`): an error is
returned to the caller, a fatal failure aborts the process.
-/

namespace Pictocrab

/-- Constants from the source: `GETS_THREAD_COUNT`, `BUFFER_SIZE`,
`MIN_AVAILABLE_MEMORY`. -/
def GETS_THREAD_COUNT : Nat := 12

def MIN_AVAILABLE_MEMORY : Nat := 2

/-- `enum CacheType { OnDisk(u32), InMemory(Arc<Vec<u8>>) }`.  Byte buffers
are `List Nat`. -/
inductive CacheType where
  | OnDisk (id : Nat)
  | InMemory (bytes : List Nat)
  deriving DecidableEq, Repr

/-- A failure: `err` models an `anyhow::Error` returned with `?`, `fatal`
models a Rust panic (index out of bounds, `unwrap` on a parse failure,
`slice::chunks` called with chunk size 0). -/
inductive Failure where
  | err (msg : String)
  | fatal (msg : String)
  deriving DecidableEq, Repr

/-- Association-list map with replace-on-insert semantics, standing in for
`HashMap<String, _>` (one entry per key). -/
def alistInsert {α : Type} (k : String) (v : α) : List (String × α) → List (String × α)
  | [] => [(k, v)]
  | (k2, v2) :: rest => if k2 = k then (k, v) :: rest else (k2, v2) :: alistInsert k v rest

def alistGet {α : Type} (k : String) : List (String × α) → Option α
  | [] => none
  | (k2, v2) :: rest => if k2 = k then some v2 else alistGet k rest

def alistRemove {α : Type} (k : String) : List (String × α) → List (String × α)
  | [] => []
  | (k2, v2) :: rest => if k2 = k then rest else (k2, v2) :: alistRemove k rest

/-- `HashSet<String>` insertion (at most one copy of each element). -/
def setInsert (s : String) (l : List String) : List String :=
  if s ∈ l then l else s :: l

/-- The process state: the two `OnceCell` configuration cells
(`CACHE_DIR`, `THREADED_READS`), the process working directory
(`std::env::set_current_dir`), the shared pair
`(CachedImages, CachedPaths)`, and the disk cache files written under the
cache directory (path ↦ contents). -/
structure ServerState where
  cacheDir : Option String
  threadedReads : Option Bool
  workingDir : String
  cache : List (String × CacheType)
  fingerprints : List String
  files : List (String × List Nat)
  deriving DecidableEq, Repr

/-- A decoded image as produced by the codec facade (`image` crate):
an extent plus opaque pixel content. -/
structure Img where
  width : Nat
  height : Nat
  data : List Nat
  deriving DecidableEq, Repr

/-- The external collaborators, per the specification's contracts:
the memory probe (`sysinfo` available bytes), the blocking HTTP client
(already composed with `error_for_status`), local source-image reads,
and the codec facade (`load_from_memory`, `thumbnail_exact`,
`write_to(_, Bmp)`). -/
structure Env where
  availMem : Nat
  httpGet : String → Except String (List Nat)
  readFileExternal : String → Except String (List Nat)
  decode : List Nat → Except String Img
  thumbnailExact : Img → Nat → Nat → Img
  encodeBmp : Img → Except String (List Nat)

/-- Big-endian bytes of `n as u32` (`(len as u32).to_be_bytes()`); the
`as u32` truncation is absorbed by the modular arithmetic. -/
def u32be (n : Nat) : List Nat :=
  [n / 16777216 % 256, n / 65536 % 256, n / 256 % 256, n % 256]

/-- `send_image`: write the 4-byte big-endian length, then the bytes.
Returns the frame appended to the stream. -/
def send_image (img_bytes : List Nat) : List Nat :=
  u32be img_bytes.length ++ img_bytes

/-- `get_disk_cache_path`: `format!("{}/{}.bmp", CACHE_DIR.get().ok_or(..)?, cache_id)`. -/
def get_disk_cache_path (st : ServerState) (cache_id : Nat) : Except Failure String :=
  match st.cacheDir with
  | none => .error (.err "Not setup")
  | some dir => .ok (dir ++ "/" ++ toString cache_id ++ ".bmp")

/-- `cache_img`: sample available memory, take the write lock; when below
the threshold assign `id := cache.len() as u32` — the cast truncates, so
the id is the index size modulo 2^32 — write the bytes to
`{dir}/{id}.bmp` and record `OnDisk(id)`, otherwise record
`InMemory(bytes)`.  `availMem` is the probe's sample for this insertion. -/
def cache_img (availMem : Nat) (path : String) (img_bytes : List Nat)
    (st : ServerState) : Except Failure Unit × ServerState :=
  if availMem / 1000000000 < MIN_AVAILABLE_MEMORY then
    let cache_id := st.cache.length % 4294967296
    match get_disk_cache_path st cache_id with
    | .error e => (.error e, st)
    | .ok p =>
      (.ok (), { st with
        files := alistInsert p img_bytes st.files,
        cache := alistInsert path (CacheType.OnDisk cache_id) st.cache })
  else
    (.ok (), { st with cache := alistInsert path (CacheType.InMemory img_bytes) st.cache })

/-- `get_from_cache`: under the read lock resolve the entry; `InMemory`
clones the buffer, `OnDisk` reads `{dir}/{id}.bmp` (a missing file is an
`anyhow` error from `std::fs::read`). -/
def get_from_cache (path : String) (st : ServerState) :
    Except Failure (Option (List Nat)) :=
  match alistGet path st.cache with
  | none => .ok none
  | some (CacheType.InMemory b) => .ok (some b)
  | some (CacheType.OnDisk cache_id) =>
    match get_disk_cache_path st cache_id with
    | .error e => .error e
    | .ok p =>
      match alistGet p st.files with
      | none => .error (.err "No such file or directory")
      | some b => .ok (some b)

/-- `path.starts_with("https://")`, character by character. -/
def starts_with (s pre : String) : Bool :=
  pre.data.isPrefixOf s.data

/-- The fetcher part of `get_image`: a path starting with `https://` goes
through the blocking HTTP client (non-2xx and transport failures are
already folded into `Env.httpGet`'s error); otherwise the local file is
read — when `THREADED_READS` is unset the source fails with "Not setup",
and when it is `false` the read happens while holding the cache's write
lock (a serialization detail with no effect on the returned bytes in this
sequential embedding). -/
def fetch_raw (env : Env) (path : String) (st : ServerState) :
    Except Failure (List Nat) :=
  if starts_with path "https://" then
    match env.httpGet path with
    | .error e => .error (.err ("Error getting : " ++ e))
    | .ok bytes => .ok bytes
  else
    match st.threadedReads with
    | none => .error (.err "Not setup")
    | some _ =>
      match env.readFileExternal path with
      | .error e => .error (.err e)
      | .ok bytes => .ok bytes

/-- `get_image`: on a cache hit, frame and write the cached bytes; on a
miss, fetch, decode, resize to the exact extent when it differs, encode to
bitmap, insert into the cache, then frame and write.  Returns
(result, bytes written to the sink, state after). -/
def get_image (env : Env) (path : String) (width height : Nat)
    (st : ServerState) : Except Failure Unit × List Nat × ServerState :=
  match get_from_cache path st with
  | .error e => (.error e, [], st)
  | .ok (some img_bytes) => (.ok (), send_image img_bytes, st)
  | .ok none =>
    match fetch_raw env path st with
    | .error e => (.error e, [], st)
    | .ok raw_img_bytes =>
      match env.decode raw_img_bytes with
      | .error e => (.error (.err e), [], st)
      | .ok img0 =>
        let img := if img0.width ≠ width || img0.height ≠ height then
            env.thumbnailExact img0 width height else img0
        match env.encodeBmp img with
        | .error e => (.error (.err e), [], st)
        | .ok bmp_img_bytes =>
          match cache_img env.availMem path bmp_img_bytes st with
          | (.error e, st') => (.error e, [], st')
          | (.ok _, st') => (.ok (), send_image bmp_img_bytes, st')

/-- Running the single-image pipeline for each path in order into one
sink, threading the cache state.  This is both the body of a worker
(`gets_thread`: `for path in &paths { get_image(&mut cursor, ..) }`) and
the all-cached branch of `gets_images`
(`for path in paths { get_image(stream, ..) }`). -/
def get_images_seq (env : Env) (width height : Nat) (paths : List String)
    (st : ServerState) : Except Failure Unit × List Nat × ServerState :=
  match paths with
  | [] => (.ok (), [], st)
  | p :: rest =>
    match get_image env p width height st with
    | (.error e, out, st') => (.error e, out, st')
    | (.ok _, out, st') =>
      let (res, out2, st2) := get_images_seq env width height rest st'
      (res, out ++ out2, st2)

/-- `slice::chunks` for a positive chunk size `k + 1`, via fuel; the fuel
is always instantiated with the list length, which each step strictly
decreases, so the fuel-exhausted fallback is never reached from
`rustChunks`. -/
def chunksFuel (fuel : Nat) (k : Nat) (xs : List String) : List (List String) :=
  match fuel, xs with
  | _, [] => []
  | 0, xs => [xs]
  | fuel + 1, x :: rest => (x :: rest.take k) :: chunksFuel fuel k (rest.drop k)

/-- `paths.chunks(chunk_size)`: `none` models the Rust panic
"chunk size must be non-zero" when `chunk_size = 0`. -/
def rustChunks (chunk_size : Nat) (xs : List String) :
    Option (List (List String)) :=
  match chunk_size with
  | 0 => none
  | k + 1 => some (chunksFuel xs.length k xs)

/-- One iteration of the remainder-folding loop: pop the last chunk and
append its elements to the new last chunk. -/
def popAppend : List (List String) → List (List String)
  | [] => []
  | [c] => [c]
  | [c, d] => [c ++ d]
  | c :: d :: e :: rest => c :: popAppend (d :: e :: rest)

/-- `while thread_chunks.len() > GETS_THREAD_COUNT { .. }`, via fuel; each
iteration shortens the list by one, so `cs.length` fuel always suffices. -/
def foldChunksFuel (fuel : Nat) (cs : List (List String)) : List (List String) :=
  match fuel with
  | 0 => cs
  | fuel + 1 =>
    if GETS_THREAD_COUNT < cs.length then foldChunksFuel fuel (popAppend cs) else cs

def foldChunks (cs : List (List String)) : List (List String) :=
  foldChunksFuel cs.length cs

/-- The chunk list `gets_images` dispatches to the workers:
`paths.chunks(paths.len() / GETS_THREAD_COUNT)` followed by the
remainder-folding loop; `none` is the chunk-size-zero panic. -/
def gets_thread_chunks (paths : List String) : Option (List (List String)) :=
  match rustChunks (paths.length / GETS_THREAD_COUNT) paths with
  | none => none
  | some cs => some (foldChunks cs)

/-- The gather phase of the dispatcher under the canonical deterministic
schedule: chunk `i`'s worker runs `get_images_seq` on the state left by
chunk `i - 1`, and the reply buffers are written to the stream in chunk
order.  When a worker fails, its partially filled local buffer is never
sent (the worker thread exits before `sender.send`), so earlier chunks'
buffers are on the stream and the failing chunk contributes nothing. -/
def processChunks (env : Env) (width height : Nat) (chunks : List (List String))
    (st : ServerState) : Except Failure Unit × List Nat × ServerState :=
  match chunks with
  | [] => (.ok (), [], st)
  | c :: rest =>
    match get_images_seq env width height c st with
    | (.error e, _, st') => (.error e, [], st')
    | (.ok _, out, st') =>
      let (res, out2, st2) := processChunks env width height rest st'
      (res, out ++ out2, st2)

/-- `gets_images`: compute the fingerprint `paths.join("")`; when it is
recorded, run the single-image pipeline for each path directly on the
stream; otherwise chunk the paths, dispatch each chunk to a worker,
write the reply buffers in order, and record the fingerprint. -/
def gets_images (env : Env) (width height : Nat) (paths : List String)
    (st : ServerState) : Except Failure Unit × List Nat × ServerState :=
  let paths_key := String.join paths
  if paths_key ∈ st.fingerprints then
    get_images_seq env width height paths st
  else
    match gets_thread_chunks paths with
    | none => (.error (.fatal "chunk size must not be zero"), [], st)
    | some thread_chunks =>
      match processChunks env width height thread_chunks st with
      | (.error e, out, st') => (.error e, out, st')
      | (.ok _, out, st') =>
        (.ok (), out, { st' with fingerprints := setInsert paths_key st'.fingerprints })

/-- The chunks a `gets` call sends to the worker channels: none when the
fingerprint is recorded (short-circuit) and none when the chunking
panics (the panic happens before any send). -/
def gets_sent_chunks (paths : List String) (st : ServerState) : List (List String) :=
  if String.join paths ∈ st.fingerprints then []
  else
    match gets_thread_chunks paths with
    | none => []
    | some thread_chunks => thread_chunks

/-- `setup`: `set_current_dir(working_dir)?` runs first; only then is the
already-configured check made, and on first configuration both `OnceCell`s
are set.  (`set_current_dir` failure is not modelled: the specification
requires the directories to exist.) -/
def setup (disk_cache_dir working_dir : String) (threaded_reads : Bool)
    (st : ServerState) : Except Failure Unit × ServerState :=
  let st1 := { st with workingDir := working_dir }
  if st1.cacheDir.isSome then (.ok (), st1)
  else (.ok (), { st1 with
    cacheDir := some disk_cache_dir,
    threadedReads := some threaded_reads })

/-- The file-removal pass of `clear_cache` over the drained entries:
deleting stops at the first `remove_file` failure (modelled as the file
being absent), but the `Drain` guard empties the map regardless. -/
def removeCacheFiles (st0 : ServerState) (entries : List (String × CacheType))
    (files : List (String × List Nat)) :
    Except Failure Unit × List (String × List Nat) :=
  match entries with
  | [] => (.ok (), files)
  | (_, CacheType.InMemory _) :: rest => removeCacheFiles st0 rest files
  | (_, CacheType.OnDisk cache_id) :: rest =>
    match get_disk_cache_path st0 cache_id with
    | .error e => (.error e, files)
    | .ok p =>
      match alistGet p files with
      | none => (.error (.err "No such file or directory"), files)
      | some _ => removeCacheFiles st0 rest (alistRemove p files)

/-- `clear_cache`: under the write lock clear the fingerprint set, drain
the image map, and delete the disk file of every `OnDisk` entry
(the drain order of a `HashMap` is unspecified; the model uses the
association list's order). -/
def clear_cache (st : ServerState) : Except Failure Unit × ServerState :=
  let (res, files') := removeCacheFiles st st.cache st.files
  (res, { st with fingerprints := [], cache := [], files := files' })

/-- `args[i]` on `Vec<&str>`: an out-of-bounds index is a Rust panic. -/
def argIndex (args : List String) (i : Nat) : Except Failure String :=
  match args.get? i with
  | none => .error (.fatal "index out of bounds")
  | some s => .ok s

/-- Accumulate a decimal number from characters; any non-digit fails. -/
def parseDigits : List Char → Nat → Option Nat
  | [], acc => some acc
  | c :: rest, acc =>
    if 48 ≤ c.toNat ∧ c.toNat ≤ 57 then
      parseDigits rest (acc * 10 + (c.toNat - 48))
    else none

/-- `s.parse::<u32>().unwrap()`: an optional leading `+`, then at least
one digit, and the value must fit in 32 bits (`u32::from_str` accepts a
leading `+` but not `-`); a parse failure is a panic (`unwrap`). -/
def parseU32 (s : String) : Except Failure Nat :=
  match s.data with
  | [] => .error (.fatal "called unwrap on an Err value")
  | c :: rest =>
    match (if c = '+' then rest else c :: rest) with
    | [] => .error (.fatal "called unwrap on an Err value")
    | d :: ds =>
      match parseDigits (d :: ds) 0 with
      | none => .error (.fatal "called unwrap on an Err value")
      | some n =>
        if n < 4294967296 then .ok n
        else .error (.fatal "called unwrap on an Err value")

/-- `process_command`: dispatch on `args[0]`; `setup` takes
`args[1..=3]`, `gets` parses `args[1]`/`args[2]` and passes `args[3..]`,
`get` takes `args[1]` and parses `args[2]`/`args[3]`; an unknown command
is logged with no response frame.  Subexpressions are evaluated in the
source's left-to-right order, so the first missing index or failed parse
panics before anything runs. -/
def process_command (env : Env) (args : List String) (st : ServerState) :
    Except Failure Unit × List Nat × ServerState :=
  match argIndex args 0 with
  | .error e => (.error e, [], st)
  | .ok cmd =>
    if cmd = "clear_cache" then
      let (res, st') := clear_cache st
      (res, [], st')
    else if cmd = "setup" then
      match argIndex args 1 with
      | .error e => (.error e, [], st)
      | .ok a1 =>
        match argIndex args 2 with
        | .error e => (.error e, [], st)
        | .ok a2 =>
          match argIndex args 3 with
          | .error e => (.error e, [], st)
          | .ok a3 =>
            let (res, st') := setup a1 a2 (a3 = "true") st
            (res, [], st')
    else if cmd = "gets" then
      match argIndex args 1 with
      | .error e => (.error e, [], st)
      | .ok a1 =>
        match parseU32 a1 with
        | .error e => (.error e, [], st)
        | .ok width =>
          match argIndex args 2 with
          | .error e => (.error e, [], st)
          | .ok a2 =>
            match parseU32 a2 with
            | .error e => (.error e, [], st)
            | .ok height => gets_images env width height (args.drop 3) st
    else if cmd = "get" then
      match argIndex args 1 with
      | .error e => (.error e, [], st)
      | .ok path =>
        match argIndex args 2 with
        | .error e => (.error e, [], st)
        | .ok a2 =>
          match parseU32 a2 with
          | .error e => (.error e, [], st)
          | .ok width =>
            match argIndex args 3 with
            | .error e => (.error e, [], st)
            | .ok a3 =>
              match parseU32 a3 with
              | .error e => (.error e, [], st)
              | .ok height => get_image env path width height st
    else
      (.ok (), [], st)

/-- The result of one `stream.read(..)` call on the client stream: either
the bytes it delivered (possibly none — a zero-length read) or an I/O
error. -/
inductive ReadEvent where
  | chunk (bytes : List Nat)
  | fail (msg : String)
  deriving DecidableEq, Repr

/-- How the connection loop's run over a finite read script ends:
`starved` — the script is exhausted while the loop would keep reading
(the real loop blocks; it has no clean exit of its own);
`erred` — `read_command` returned an error, ending `read_loop` with that
error (logged by `main`, which then waits for the next client);
`died` — a panic unwound out of the command processor, aborting the
process. -/
inductive LoopEnd where
  | starved
  | erred (msg : String)
  | died (msg : String)
  deriving DecidableEq, Repr

/-- Where the loop currently is: about to read a 4-byte length, or
accumulating `data` until it reaches `msgSize` bytes. -/
inductive LoopMode where
  | atLen
  | inBody (data : List Nat) (msgSize : Nat)
  deriving DecidableEq, Repr

/-- The 4-byte length buffer after a read delivered `c` (the buffer is
zero-initialised; a short read leaves the tail zero). -/
def lenBuffer (c : List Nat) : List Nat :=
  (c ++ [0, 0, 0, 0]).take 4

/-- `u32::from_be_bytes` on the 4-byte buffer. -/
def beU32 (l : List Nat) : Nat :=
  match l with
  | [a, b, c, d] => a * 16777216 + b * 65536 + c * 256 + d
  | _ => 0

/-- Bytes of an ASCII command string, and the lossy decoding used by
`String::from_utf8_lossy` restricted to the ASCII commands in scope. -/
def asciiBytes (s : String) : List Nat :=
  s.data.map Char.toNat

def decodeAscii (l : List Nat) : String :=
  String.mk (l.map Char.ofNat)

/-- `command.split("|")`: split a string at every `'|'`, keeping empty
fields (so `""` yields `[""]` and a trailing separator yields a trailing
empty field), exactly as Rust's `str::split('|')` does. -/
def splitBarAux : List Char → List Char → List String
  | [], acc => [String.mk acc.reverse]
  | c :: rest, acc =>
    if c = '|' then String.mk acc.reverse :: splitBarAux rest []
    else splitBarAux rest (c :: acc)

def splitBar (s : String) : List String :=
  splitBarAux s.data []

/-- Parse the accumulated frame text and run `process_command` on it:
`let args = command.split("|").collect()`. -/
def execCommand (env : Env) (data : List Nat) (st : ServerState) :
    Except Failure Unit × List Nat × ServerState :=
  process_command env (splitBar (decodeAscii data)) st

/-- `read_loop` / `read_command` over a finite read script, one
`ReadEvent` per `stream.read` call.  A zero-length read of the length
buffer makes `read_command` return `Ok(())` and the loop read again; a
read error ends the loop with that error; after a complete frame the
command runs — an `Ok` command continues the loop, an error ends it
(`loop { read_command(..)? }`), and a panic aborts the process.  A frame
whose length is 0 is processed immediately (the body loop's condition is
already false). -/
def runServer (env : Env) : List ReadEvent → LoopMode → ServerState →
    LoopEnd × List Nat × ServerState
  | [], _, st => (.starved, [], st)
  | ReadEvent.fail e :: _, _, st => (.erred e, [], st)
  | ReadEvent.chunk c :: rest, LoopMode.atLen, st =>
    if c.length = 0 then runServer env rest LoopMode.atLen st
    else
      let msgSize := beU32 (lenBuffer c)
      if msgSize = 0 then
        match execCommand env [] st with
        | (.error (.fatal m), _, _) => (.died m, [], st)
        | (.error (.err e), out, st') => (.erred e, out, st')
        | (.ok _, out, st') =>
          let (fin, out2, st2) := runServer env rest LoopMode.atLen st'
          (fin, out ++ out2, st2)
      else runServer env rest (LoopMode.inBody [] msgSize) st
  | ReadEvent.chunk c :: rest, LoopMode.inBody data msgSize, st =>
    let data2 := data ++ c
    if data2.length < msgSize then runServer env rest (LoopMode.inBody data2 msgSize) st
    else
      match execCommand env data2 st with
      | (.error (.fatal m), _, _) => (.died m, [], st)
      | (.error (.err e), out, st') => (.erred e, out, st')
      | (.ok _, out, st') =>
        let (fin, out2, st2) := runServer env rest LoopMode.atLen st'
        (fin, out ++ out2, st2)

/-- A well-formed client frame for a command string: the length-prefix
read followed by the body read. -/
def frameEvents (cmd : String) : List ReadEvent :=
  [ReadEvent.chunk (u32be (asciiBytes cmd).length), ReadEvent.chunk (asciiBytes cmd)]

/-- The whole connection loop on a read script, starting at a length
read. -/
def read_loop (env : Env) (events : List ReadEvent) (st : ServerState) :
    LoopEnd × List Nat × ServerState :=
  runServer env events LoopMode.atLen st

/-! ### Test fixtures

A concrete environment and states used by the concrete witnesses and
counterexamples.  `testEnv` reports ample memory (in-memory tier), serves
`[7]` for every local file, decodes every buffer to a 5×5 image whose
content is the buffer, encodes an image to its content, and fails every
HTTP fetch with a 404 (matching the spec's scenario 4). -/

def testEnv : Env where
  availMem := 3000000000
  httpGet := fun _ => .error "HTTP status client error (404 Not Found) for url"
  readFileExternal := fun _ => .ok [7]
  decode := fun bytes => .ok { width := 5, height := 5, data := bytes }
  thumbnailExact := fun img w h => { width := w, height := h, data := img.data }
  encodeBmp := fun img => .ok img.data

/-- A configured server with an empty cache (after
`setup|d|w|true` on a fresh process). -/
def st0 : ServerState where
  cacheDir := some "d"
  threadedReads := some true
  workingDir := "w"
  cache := []
  fingerprints := []
  files := []

/-- A fresh, unconfigured server (before any `setup`). -/
def stUnset : ServerState where
  cacheDir := none
  threadedReads := none
  workingDir := "start"
  cache := []
  fingerprints := []
  files := []

/-! ### Association-list lemmas -/

theorem alistGet_insert_same {α : Type} (k : String) (v : α)
    (m : List (String × α)) : alistGet k (alistInsert k v m) = some v := by
  induction m with
  | nil => simp [alistInsert, alistGet]
  | cons hd tl ih =>
    obtain ⟨k2, v2⟩ := hd
    by_cases h : k2 = k
    · simp [alistInsert, alistGet, h]
    · simp [alistInsert, alistGet, h, ih]

theorem alistGet_insert_ne {α : Type} (k q : String) (v : α)
    (m : List (String × α)) (hne : q ≠ k) :
    alistGet q (alistInsert k v m) = alistGet q m := by
  induction m with
  | nil => simp [alistInsert, alistGet, Ne.symm hne]
  | cons hd tl ih =>
    obtain ⟨k2, v2⟩ := hd
    by_cases h : k2 = k
    · subst h
      simp [alistInsert, alistGet, Ne.symm hne]
    · simp [alistInsert, alistGet, h, ih]

theorem alistInsert_fresh {α : Type} (k : String) (v : α)
    (m : List (String × α)) (h : alistGet k m = none) :
    alistInsert k v m = m ++ [(k, v)] := by
  induction m with
  | nil => simp [alistInsert]
  | cons hd tl ih =>
    obtain ⟨k2, v2⟩ := hd
    by_cases hk : k2 = k
    · simp [alistGet, hk] at h
    · simp [alistGet, hk] at h
      simp [alistInsert, hk, ih h]

theorem alistInsert_fresh_length {α : Type} (k : String) (v : α)
    (m : List (String × α)) (h : alistGet k m = none) :
    (alistInsert k v m).length = m.length + 1 := by
  rw [alistInsert_fresh k v m h]
  simp

theorem mem_setInsert (s : String) (l : List String) : s ∈ setInsert s l := by
  by_cases h : s ∈ l <;> simp [setInsert, h]

/-! ### Claim C4 — cache insert/lookup round trip -/

/-- Claim C4: after a successful `insert(path, bytes)` (`cache_img`), a
`lookup(path)` (`get_from_cache`) returns exactly `bytes`, on both the
in-memory tier and the on-disk tier (for the disk tier the bytes written
to `{dir}/{id}.bmp` are read back unchanged). -/
theorem cache_insert_lookup_roundtrip (availMem : Nat) (path : String)
    (bytes : List Nat) (st st' : ServerState)
    (h : cache_img availMem path bytes st = (.ok (), st')) :
    get_from_cache path st' = .ok (some bytes) := by
  unfold cache_img at h
  by_cases hmem : availMem / 1000000000 < MIN_AVAILABLE_MEMORY
  · rw [if_pos hmem] at h
    unfold get_disk_cache_path at h
    cases hdir : st.cacheDir with
    | none => rw [hdir] at h; exact absurd (congrArg Prod.fst h) (by simp)
    | some dir =>
      rw [hdir] at h
      have h2 := congrArg Prod.snd h
      simp only [] at h2
      subst h2
      simp [get_from_cache, get_disk_cache_path, alistGet_insert_same]
  · rw [if_neg hmem] at h
    have h2 := congrArg Prod.snd h
    simp only [] at h2
    subst h2
    simp [get_from_cache, alistGet_insert_same]

/-- Witness for C4 at a concrete disk-tier insertion: 0 bytes of free
memory force the on-disk tier, the file `d/0.bmp` receives `[1, 2]`, and
the lookup returns `[1, 2]`. -/
theorem cache_insert_lookup_roundtrip_witness :
    get_from_cache "a" { st0 with
      files := [("d/0.bmp", [1, 2])],
      cache := [("a", CacheType.OnDisk 0)] } = .ok (some [1, 2]) :=
  cache_insert_lookup_roundtrip 0 "a" [1, 2] st0 _ rfl

/-! ### Claim C6 — repeated `setup` -/

/-- Counterexample to claim C6 as stated: on an already configured server
whose working directory is `"w"`, a second `setup` with working directory
`"w2"` returns `Ok` but the process working directory afterwards is
`"w2"`, not the `"w"` the first setup established —
`std::env::set_current_dir` runs before the already-configured check. -/
theorem setup_second_call_changes_workdir :
    (setup "c2" "w2" false st0).2.workingDir = "w2" ∧
      st0.workingDir = "w" ∧ (setup "c2" "w2" false st0).1 = .ok () := by
  refine ⟨rfl, rfl, rfl⟩

/-- Claim C6 as amended: a second `setup` returns `Ok` and leaves the
disk cache directory and the threaded-reads flag unchanged, but it still
sets the process working directory to its `working_dir` argument (the
`set_current_dir` call precedes the configured check). -/
theorem setup_second_call_behavior (disk_cache_dir working_dir : String)
    (threaded_reads : Bool) (st : ServerState) (h : st.cacheDir.isSome) :
    setup disk_cache_dir working_dir threaded_reads st =
      (.ok (), { st with workingDir := working_dir }) := by
  unfold setup
  simp [h]

/-- Witness for the amended C6 on a concrete configured state. -/
theorem setup_second_call_behavior_witness :
    setup "c2" "w2" false st0 = (.ok (), { st0 with workingDir := "w2" }) :=
  setup_second_call_behavior "c2" "w2" false st0 rfl

/-! ### Claim C7 — `OnDisk` id assignment -/

/-- The ids of the `OnDisk` entries of a cache index, in order. -/
def onDiskIds : List (String × CacheType) → List Nat
  | [] => []
  | (_, CacheType.OnDisk i) :: rest => i :: onDiskIds rest
  | (_, CacheType.InMemory _) :: rest => onDiskIds rest

/-- A sequence of `insert` calls, each with its own memory-probe sample:
`cache_img` is invoked for each `(availMem, path, bytes)` in order,
stopping at the first failure. -/
def insertSeq : List (Nat × String × List Nat) → ServerState →
    Except Failure Unit × ServerState
  | [], st => (.ok (), st)
  | (availMem, p, b) :: rest, st =>
    match cache_img availMem p b st with
    | (.error e, st') => (.error e, st')
    | (.ok _, st') => insertSeq rest st'

theorem onDiskIds_append_disk (m : List (String × CacheType)) (p : String)
    (n : Nat) : onDiskIds (m ++ [(p, CacheType.OnDisk n)]) = onDiskIds m ++ [n] := by
  induction m with
  | nil => simp [onDiskIds]
  | cons hd tl ih =>
    obtain ⟨q, v⟩ := hd
    cases v <;> simp [onDiskIds, ih]

theorem onDiskIds_append_mem (m : List (String × CacheType)) (p : String)
    (b : List Nat) : onDiskIds (m ++ [(p, CacheType.InMemory b)]) = onDiskIds m := by
  induction m with
  | nil => simp [onDiskIds]
  | cons hd tl ih =>
    obtain ⟨q, v⟩ := hd
    cases v <;> simp [onDiskIds, ih]

/-- The cache index after `cache_img` is the old index, or the old index
with the path bound to `OnDisk (old size)` (disk tier), or with the path
bound to `InMemory bytes`. -/
theorem cache_img_cache_cases (availMem : Nat) (p : String) (b : List Nat)
    (st : ServerState) :
    ((cache_img availMem p b st).2).cache = st.cache ∨
    ((cache_img availMem p b st).2).cache =
      alistInsert p (CacheType.OnDisk (st.cache.length % 4294967296)) st.cache ∨
    ((cache_img availMem p b st).2).cache =
      alistInsert p (CacheType.InMemory b) st.cache := by
  unfold cache_img
  by_cases hmem : availMem / 1000000000 < MIN_AVAILABLE_MEMORY
  · rw [if_pos hmem]
    unfold get_disk_cache_path
    cases st.cacheDir with
    | none => left; rfl
    | some dir => right; left; rfl
  · rw [if_neg hmem]
    right; right; rfl

/-- The well-formedness invariant of one epoch: the `OnDisk` ids are
pairwise distinct and all below the index size. -/
def IdsOK (c : List (String × CacheType)) : Prop :=
  (onDiskIds c).Nodup ∧ ∀ i ∈ onDiskIds c, i < c.length

theorem idsOK_insert_disk (c : List (String × CacheType)) (p : String)
    (hfresh : alistGet p c = none) (hok : IdsOK c) :
    IdsOK (alistInsert p (CacheType.OnDisk c.length) c) := by
  rw [alistInsert_fresh p _ c hfresh]
  obtain ⟨hnd, hlt⟩ := hok
  constructor
  · rw [onDiskIds_append_disk, List.nodup_append]
    refine ⟨hnd, List.nodup_singleton _, ?_⟩
    intro a ha hb
    simp at hb
    subst hb
    exact absurd (hlt _ ha) (lt_irrefl _)
  · intro i hi
    rw [onDiskIds_append_disk] at hi
    rcases List.mem_append.mp hi with h | h
    · have := hlt i h
      simp
      omega
    · simp at h
      subst h
      simp

theorem idsOK_insert_mem (c : List (String × CacheType)) (p : String)
    (b : List Nat) (hfresh : alistGet p c = none) (hok : IdsOK c) :
    IdsOK (alistInsert p (CacheType.InMemory b) c) := by
  rw [alistInsert_fresh p _ c hfresh]
  obtain ⟨hnd, hlt⟩ := hok
  constructor
  · rw [onDiskIds_append_mem]; exact hnd
  · intro i hi
    rw [onDiskIds_append_mem] at hi
    have := hlt i hi
    simp
    omega

/-- One `cache_img` step on an index that has not yet reached 2^32
entries (so the `as u32` cast of its size does not truncate) preserves
the id invariant when the path is not yet present, does not disturb the
entries of other paths, and grows the index by at most one entry. -/
theorem cache_img_step (availMem : Nat) (p : String) (b : List Nat)
    (st : ServerState) (hfresh : alistGet p st.cache = none)
    (hok : IdsOK st.cache) (hlen : st.cache.length < 4294967296) :
    IdsOK ((cache_img availMem p b st).2).cache ∧
    (∀ q, q ≠ p →
      alistGet q ((cache_img availMem p b st).2).cache = alistGet q st.cache) ∧
    ((cache_img availMem p b st).2).cache.length ≤ st.cache.length + 1 := by
  rcases cache_img_cache_cases availMem p b st with h | h | h
  · rw [h]
    exact ⟨hok, fun q _ => rfl, by omega⟩
  · rw [h, Nat.mod_eq_of_lt hlen]
    exact ⟨idsOK_insert_disk st.cache p hfresh hok,
      fun q hq => alistGet_insert_ne p q _ st.cache hq,
      Nat.le_of_eq (alistInsert_fresh_length p _ st.cache hfresh)⟩
  · rw [h]
    exact ⟨idsOK_insert_mem st.cache p b hfresh hok,
      fun q hq => alistGet_insert_ne p q _ st.cache hq,
      Nat.le_of_eq (alistInsert_fresh_length p _ st.cache hfresh)⟩

/-- Invariant preservation along a whole insertion sequence whose paths
are pairwise distinct and all absent from the starting index, as long as
the index size stays below 2^32 throughout (so the `as u32` cast never
wraps). -/
theorem insertSeq_idsOK (items : List (Nat × String × List Nat))
    (st : ServerState) (hok : IdsOK st.cache)
    (hbound : st.cache.length + items.length ≤ 4294967296)
    (hnd : (items.map (fun i => i.2.1)).Nodup)
    (hfresh : ∀ pr ∈ items, alistGet pr.2.1 st.cache = none) :
    IdsOK ((insertSeq items st).2).cache := by
  induction items generalizing st with
  | nil => exact hok
  | cons hd rest ih =>
    obtain ⟨availMem, p, b⟩ := hd
    have hfp : alistGet p st.cache = none := hfresh (availMem, p, b) (by simp)
    have hlt : st.cache.length < 4294967296 := by
      simp only [List.length_cons] at hbound
      omega
    obtain ⟨hok', hother, hgrow⟩ := cache_img_step availMem p b st hfp hok hlt
    rcases hc : cache_img availMem p b st with ⟨res, st1⟩
    rw [hc] at hok' hother hgrow
    cases res with
    | error e =>
      simp [insertSeq, hc]
      exact hok'
    | ok u =>
      simp [insertSeq, hc]
      rw [List.map_cons, List.nodup_cons] at hnd
      refine ih st1 hok' ?_ hnd.2 ?_
      · have hgrow2 : st1.cache.length ≤ st.cache.length + 1 := by simpa using hgrow
        simp only [List.length_cons] at hbound
        omega
      · intro pr hpr
        have hne : pr.2.1 ≠ p := by
          have hmem : pr.2.1 ∈ rest.map (fun i => i.2.1) :=
            List.mem_map.mpr ⟨pr, hpr, rfl⟩
          intro hcontra
          exact hnd.1 (hcontra ▸ hmem)
        rw [hother pr.2.1 hne]
        exact hfresh pr (by simp [hpr])

/-- Counterexample to claim C7 as stated: from an empty configured cache,
with the memory probe always reporting 0 (disk tier), the insertions
`insert "a" [1]; insert "a" [2]; insert "b" [3]` leave the index with the
two entries `("a", OnDisk 1)` and `("b", OnDisk 1)` — two `OnDisk`
entries of the same epoch holding the same id.  The re-insert of `"a"`
replaces its entry without growing the index, so the size-based id `1` is
handed out twice. -/
theorem duplicate_insert_duplicates_onDisk_ids :
    ((insertSeq [(0, "a", [1]), (0, "a", [2]), (0, "b", [3])] st0).2).cache
      = [("a", CacheType.OnDisk 1), ("b", CacheType.OnDisk 1)] ∧
    ¬ (onDiskIds
        ((insertSeq [(0, "a", [1]), (0, "a", [2]), (0, "b", [3])] st0).2).cache).Nodup := by
  constructor
  · rfl
  · decide

/-- Claim C7 as amended: the id assigned by a disk-tier insertion always
equals the `as u32` truncation of the index size at the moment of
insertion (`unlocked_cache.0.len() as u32`, i.e. the size modulo 2^32);
and within one epoch the `OnDisk` ids are pairwise distinct provided no
path is inserted more than once AND the epoch performs at most 2^32
insertions (past that the cast wraps and ids repeat).  Re-inserting an
existing path does not grow the index, so a later insertion of a
different path can reuse its id — the counterexample. -/
theorem onDisk_id_assignment_amended :
    (∀ (availMem : Nat) (p : String) (b : List Nat) (st st' : ServerState),
        availMem / 1000000000 < MIN_AVAILABLE_MEMORY →
        cache_img availMem p b st = (.ok (), st') →
        alistGet p st'.cache =
          some (CacheType.OnDisk (st.cache.length % 4294967296))) ∧
    (∀ (items : List (Nat × String × List Nat)) (st : ServerState),
        st.cache = [] → items.length ≤ 4294967296 →
        (items.map (fun i => i.2.1)).Nodup →
        (onDiskIds ((insertSeq items st).2).cache).Nodup) := by
  constructor
  · intro availMem p b st st' hmem h
    unfold cache_img at h
    rw [if_pos hmem] at h
    unfold get_disk_cache_path at h
    cases hdir : st.cacheDir with
    | none => rw [hdir] at h; exact absurd (congrArg Prod.fst h) (by simp)
    | some dir =>
      rw [hdir] at h
      have h2 := congrArg Prod.snd h
      simp only [] at h2
      subst h2
      simp [alistGet_insert_same]
  · intro items st hempty hb hnd
    have hok : IdsOK st.cache := by
      rw [hempty]
      exact ⟨List.nodup_nil, by simp [onDiskIds]⟩
    have hbound : st.cache.length + items.length ≤ 4294967296 := by
      rw [hempty]
      simpa using hb
    exact (insertSeq_idsOK items st hok hbound hnd
      (fun pr _ => by rw [hempty]; rfl)).1

/-- Witness for the amended C7: a concrete disk-tier insertion receives
id 0 = |index| % 2^32, and a concrete two-path insertion sequence with
distinct paths yields pairwise distinct `OnDisk` ids. -/
theorem onDisk_id_assignment_amended_witness :
    alistGet "a" ({ st0 with
        files := [("d/0.bmp", [1])],
        cache := [("a", CacheType.OnDisk 0)] } : ServerState).cache
      = some (CacheType.OnDisk 0) ∧
    (onDiskIds ((insertSeq [(0, "x", [1]), (0, "y", [2])] st0).2).cache).Nodup :=
  ⟨onDisk_id_assignment_amended.1 0 "a" [1] st0 _ (by decide) rfl,
    onDisk_id_assignment_amended.2 [(0, "x", [1]), (0, "y", [2])] st0 rfl
      (by decide) (by decide)⟩

/-! ### Claim C9 — lock discipline of `get_from_cache` -/

/-- The observable lock/IO events of one `get_from_cache` call. -/
inductive CacheOp where
  | readLock
  | readUnlock
  | diskRead (p : String)
  deriving DecidableEq, Repr

/-- The event trace of `get_from_cache`, straight from the source's
scoping: the read guard is taken first (`cached_images.read()`), the
`OnDisk` arm calls `std::fs::read` while the guard is still live, and
the guard is dropped only when the function returns — there is no
explicit `drop` before the file read (unlike the one in `gets_images`). -/
def get_from_cache_trace (path : String) (st : ServerState) : List CacheOp :=
  CacheOp.readLock ::
    ((match alistGet path st.cache with
      | some (CacheType.OnDisk cache_id) =>
        match st.cacheDir with
        | some dir => [CacheOp.diskRead (dir ++ "/" ++ toString cache_id ++ ".bmp")]
        | none => []
      | _ => []) ++ [CacheOp.readUnlock])

/-- Whether some disk read happens while the read lock is held, scanning
the trace with the current lock state. -/
def diskReadUnderLock : List CacheOp → Bool → Bool
  | [], _ => false
  | CacheOp.readLock :: rest, _ => diskReadUnderLock rest true
  | CacheOp.readUnlock :: rest, _ => diskReadUnderLock rest false
  | CacheOp.diskRead _ :: rest, held => held || diskReadUnderLock rest held

/-- Counterexample to claim C9 as stated: on a concrete state whose entry
for `"a"` is `OnDisk 0`, the lookup trace is
`[readLock, diskRead "d/0.bmp", readUnlock]` — the disk read happens
while the read lock is held, because the guard is dropped only at the end
of the function. -/
theorem lookup_disk_read_is_under_lock_concrete :
    get_from_cache_trace "a" { st0 with
        cache := [("a", CacheType.OnDisk 0)],
        files := [("d/0.bmp", [9])] } =
      [CacheOp.readLock, CacheOp.diskRead "d/0.bmp", CacheOp.readUnlock] ∧
    diskReadUnderLock (get_from_cache_trace "a" { st0 with
        cache := [("a", CacheType.OnDisk 0)],
        files := [("d/0.bmp", [9])] }) false = true := by
  exact ⟨rfl, rfl⟩

/-- Claim C9 as amended: during a lookup that resolves to an `OnDisk`
entry on a configured server, the disk read IS performed under the cache
read lock, and the lock is released only at the very end of the lookup
(the unlock is the last event of the trace). -/
theorem lookup_holds_lock_during_disk_read (path : String) (st : ServerState)
    (cache_id : Nat) (h : alistGet path st.cache = some (CacheType.OnDisk cache_id))
    (hdir : st.cacheDir.isSome) :
    diskReadUnderLock (get_from_cache_trace path st) false = true ∧
    (get_from_cache_trace path st).getLast? = some CacheOp.readUnlock := by
  cases hd : st.cacheDir with
  | none => rw [hd] at hdir; simp at hdir
  | some dir =>
    constructor
    · simp [get_from_cache_trace, h, hd, diskReadUnderLock]
    · simp [get_from_cache_trace, h, hd]

/-- Witness for the amended C9 at a concrete `OnDisk` state. -/
theorem lookup_holds_lock_during_disk_read_witness :
    diskReadUnderLock (get_from_cache_trace "b" { st0 with
        cache := [("b", CacheType.OnDisk 3)] }) false = true ∧
    (get_from_cache_trace "b" { st0 with
        cache := [("b", CacheType.OnDisk 3)] }).getLast? = some CacheOp.readUnlock :=
  lookup_holds_lock_during_disk_read "b" _ 3 rfl rfl

/-! ### Claim C10 — panicking command processor -/

/-- Claim C10: well-formed command frames with too few `|`-separated
fields, or a non-numeric width/height, make the command processor panic
instead of returning an error: `get` with no arguments panics on the
out-of-bounds `args[1]`, `gets|a|b|p` panics on
`args[1].parse::<u32>().unwrap()`, and at the connection level the panic
aborts the whole loop (`LoopEnd.died`), so the failure is not confined to
the offending command. -/
theorem process_command_panics_on_short_or_nonnumeric :
    process_command testEnv ["get"] st0 =
      (.error (.fatal "index out of bounds"), [], st0) ∧
    process_command testEnv ["gets", "a", "b", "p"] st0 =
      (.error (.fatal "called unwrap on an Err value"), [], st0) ∧
    process_command testEnv ["setup", "onlydir"] st0 =
      (.error (.fatal "index out of bounds"), [], st0) ∧
    read_loop testEnv (frameEvents "get") st0 =
      (.died "index out of bounds", [], st0) := by
  exact ⟨rfl, rfl, rfl, rfl⟩

/-! ### Claim C2 — chunking of a `gets` batch -/

/-- Claim C2 fails on the code: for a single-path batch whose fingerprint
is not recorded, `gets_images` computes the chunk size
`paths.len() / GETS_THREAD_COUNT = 1 / 12 = 0` and calls
`slice::chunks(0)`, which panics; no chunk is ever dispatched, instead of
the claimed single chunk of length 1.  (The same happens for every batch
of 1 to 11 paths.) -/
theorem gets_images_single_path_panics :
    gets_thread_chunks ["one.png"] = none ∧
    gets_images testEnv 50 50 ["one.png"] st0 =
      (.error (.fatal "chunk size must not be zero"), [], st0) := by
  exact ⟨rfl, rfl⟩

/-! ### Claim C8 — zero-length reads and the connection loop -/

/-- Decoding a frame length round-trips through the 4-byte buffer. -/
theorem beU32_lenBuffer_u32be (n : Nat) (h : n < 4294967296) :
    beU32 (lenBuffer (u32be n)) = n := by
  simp [u32be, lenBuffer, beU32]
  omega

/-- Counterexample to claim C8 as stated: after a zero-length read of the
length prefix the connection loop does NOT terminate — `read_command`
returns `Ok(())` and `loop { read_command(..)? }` immediately reads
again.  Concretely, a `setup` frame arriving after the zero-length read
is still processed (the state ends configured), and the run ends only
because the finite script is exhausted (`starved`), not with any clean
exit. -/
theorem zero_read_then_next_frame_still_processed :
    read_loop testEnv (ReadEvent.chunk [] :: frameEvents "setup|d|w|true") stUnset =
      (.starved, [], { stUnset with
        cacheDir := some "d", threadedReads := some true, workingDir := "w" }) := by
  rfl

/-- Claim C8 as amended: a zero-length read of the 4-byte length prefix
makes `read_command` return `Ok` without processing anything and the
connection loop polls the stream again — the loop never terminates
cleanly on EOF; only a read error ends it, with the error value
propagated out of `read_loop` (and logged by `main`). -/
theorem read_loop_zero_read_continues (env : Env) (events : List ReadEvent)
    (st : ServerState) :
    read_loop env (ReadEvent.chunk [] :: events) st = read_loop env events st ∧
    ∀ e : String, read_loop env (ReadEvent.fail e :: events) st = (.erred e, [], st) := by
  exact ⟨rfl, fun e => rfl⟩

/-! ### Claim C3 — error propagation out of a command -/

/-- Claim C3 corrected, two parts.
First: when a complete, well-formed frame's command processing returns an
(ordinary) error, `read_loop` ends with exactly that error, the bytes
written are only those the failing command wrote, and every later event
of the script is discarded — the next command is NOT serviced
(`loop { read_command(..)? }` propagates the error out of the loop).
Second: a `get` whose path misses the cache and whose remote fetch fails
(e.g. an HTTP 404) writes no bytes at all and leaves the state
unchanged. -/
theorem command_error_ends_connection_loop :
    (∀ (env : Env) (body : List Nat) (rest : List ReadEvent) (st : ServerState)
        (e : String) (out : List Nat) (st' : ServerState),
        body ≠ [] → body.length < 4294967296 →
        execCommand env body st = (.error (.err e), out, st') →
        read_loop env (ReadEvent.chunk (u32be body.length) :: ReadEvent.chunk body :: rest) st =
          (.erred e, out, st')) ∧
    (∀ (env : Env) (path : String) (width height : Nat) (st : ServerState) (e : String),
        get_from_cache path st = .ok none →
        starts_with path "https://" = true →
        env.httpGet path = .error e →
        get_image env path width height st =
          (.error (.err ("Error getting : " ++ e)), [], st)) := by
  constructor
  · intro env body rest st e out st' hne hlen hexec
    have h4 : (u32be body.length).length = 4 := by simp [u32be]
    have hlen0 : body.length ≠ 0 := fun hz => hne (List.length_eq_zero.mp hz)
    unfold read_loop runServer
    rw [h4]
    simp only [beU32_lenBuffer_u32be body.length hlen]
    rw [if_neg (by omega : ¬ (4 = 0))]
    rw [if_neg hlen0]
    unfold runServer
    simp only [List.nil_append, lt_irrefl, if_neg (lt_irrefl body.length), hexec]
    simp
  · intro env path width height st e hmiss hhttps hget
    unfold get_image
    rw [hmiss]
    unfold fetch_raw
    rw [if_pos hhttps]
    rw [hget]

/-- Witness for the corrected C3: the literal scenario
`get|https://h/x.png|32|32` with a 404 from the HTTP client, followed by
a second (valid) `setup` frame: the loop ends with the `RemoteHTTPError`,
zero response bytes are written, and the trailing frame is discarded
(the state stays `st0`). -/
theorem command_error_ends_connection_loop_witness :
    read_loop testEnv
        (ReadEvent.chunk (u32be (asciiBytes "get|https://h/x.png|32|32").length) ::
          ReadEvent.chunk (asciiBytes "get|https://h/x.png|32|32") ::
          frameEvents "setup|d2|w2|true") st0 =
      (.erred "Error getting : HTTP status client error (404 Not Found) for url", [], st0) ∧
    get_image testEnv "https://h/x.png" 32 32 st0 =
      (.error (.err "Error getting : HTTP status client error (404 Not Found) for url"),
        [], st0) :=
  ⟨command_error_ends_connection_loop.1 testEnv (asciiBytes "get|https://h/x.png|32|32")
      (frameEvents "setup|d2|w2|true") st0 _ [] st0 (by decide) (by decide) rfl,
    command_error_ends_connection_loop.2 testEnv "https://h/x.png" 32 32 st0 _ rfl rfl rfl⟩

/-- Counterexample to claim C3 as stated: in the same scenario the claim
predicts the `setup|d2|w2|true` that follows the failing `get` is still
serviced on the same connection; the code instead ends the loop at the
error and never reaches it — the final state is the untouched `st0`
(a serviced second setup would have set the working directory to
`"w2"`). -/
theorem next_command_not_serviced_after_error :
    read_loop testEnv
        (ReadEvent.chunk (u32be (asciiBytes "get|https://h/x.png|32|32").length) ::
          ReadEvent.chunk (asciiBytes "get|https://h/x.png|32|32") ::
          frameEvents "setup|d2|w2|true") st0 =
      (.erred "Error getting : HTTP status client error (404 Not Found) for url", [], st0) ∧
    st0.workingDir = "w" ∧ ("w" : String) ≠ "w2" := by
  refine ⟨rfl, rfl, by decide⟩

/-! ### Chunking lemmas -/

theorem chunksFuel_flatten (fuel k : Nat) (xs : List String) :
    (chunksFuel fuel k xs).flatten = xs := by
  induction fuel generalizing xs with
  | zero =>
    cases xs with
    | nil => rfl
    | cons x rest => simp [chunksFuel]
  | succ fuel ih =>
    cases xs with
    | nil => rfl
    | cons x rest =>
      simp [chunksFuel, ih (rest.drop k)]

theorem popAppend_flatten : ∀ cs : List (List String),
    (popAppend cs).flatten = cs.flatten
  | [] => rfl
  | [_] => rfl
  | [c, d] => by simp [popAppend]
  | c :: d :: e :: rest => by
    have ih := popAppend_flatten (d :: e :: rest)
    simp only [popAppend, List.flatten_cons] at ih ⊢
    rw [ih]

theorem foldChunksFuel_flatten (fuel : Nat) (cs : List (List String)) :
    (foldChunksFuel fuel cs).flatten = cs.flatten := by
  induction fuel generalizing cs with
  | zero => rfl
  | succ fuel ih =>
    unfold foldChunksFuel
    by_cases h : GETS_THREAD_COUNT < cs.length
    · rw [if_pos h, ih (popAppend cs), popAppend_flatten]
    · rw [if_neg h]

theorem gets_thread_chunks_flatten (paths : List String) (cs : List (List String))
    (h : gets_thread_chunks paths = some cs) : cs.flatten = paths := by
  unfold gets_thread_chunks rustChunks at h
  cases hk : paths.length / GETS_THREAD_COUNT with
  | zero => rw [hk] at h; exact absurd h (by simp)
  | succ k =>
    rw [hk] at h
    simp at h
    rw [← h, foldChunks, foldChunksFuel_flatten, chunksFuel_flatten]

/-- For at least `GETS_THREAD_COUNT` paths the chunking succeeds. -/
theorem gets_thread_chunks_isSome (paths : List String)
    (h : GETS_THREAD_COUNT ≤ paths.length) :
    gets_thread_chunks paths =
      some (foldChunks (chunksFuel paths.length
        (paths.length / GETS_THREAD_COUNT - 1) paths)) := by
  unfold gets_thread_chunks rustChunks
  have h1 : 1 ≤ paths.length / GETS_THREAD_COUNT :=
    (Nat.one_le_div_iff (by decide)).mpr h
  cases hk : paths.length / GETS_THREAD_COUNT with
  | zero => omega
  | succ k => simp

/-! ### Sequencing lemmas for the single-image pipeline -/

theorem get_images_seq_append_err (env : Env) (w h : Nat) (as bs : List String)
    (st : ServerState) (f : Failure) (o : List Nat) (s : ServerState)
    (hseq : get_images_seq env w h as st = (.error f, o, s)) :
    get_images_seq env w h (as ++ bs) st = (.error f, o, s) := by
  induction as generalizing st o with
  | nil => exact absurd (congrArg (fun t => t.1) hseq) (by simp [get_images_seq])
  | cons p rest ih =>
    rw [List.cons_append]
    rcases hg : get_image env p w h st with ⟨r1, o1, s1⟩
    cases r1 with
    | error f1 =>
      simp only [get_images_seq, hg] at hseq ⊢
      exact hseq
    | ok u1 =>
      simp only [get_images_seq, hg] at hseq ⊢
      rcases hs : get_images_seq env w h rest s1 with ⟨r2, o2, s2⟩
      rw [hs] at hseq
      simp only [Prod.mk.injEq] at hseq
      obtain ⟨hr2, ho, hs2⟩ := hseq
      have hrest : get_images_seq env w h rest s1 = (.error f, o2, s) := by
        rw [hs, hr2, hs2]
      rw [ih s1 o2 hrest, ← ho]

theorem get_images_seq_append_ok (env : Env) (w h : Nat) (as bs : List String)
    (st : ServerState) (u : Unit) (o : List Nat) (s : ServerState)
    (hseq : get_images_seq env w h as st = (.ok u, o, s)) :
    get_images_seq env w h (as ++ bs) st =
      ((get_images_seq env w h bs s).1,
        o ++ (get_images_seq env w h bs s).2.1,
        (get_images_seq env w h bs s).2.2) := by
  induction as generalizing st o with
  | nil =>
    simp only [get_images_seq, Prod.mk.injEq] at hseq
    obtain ⟨-, ho, hs⟩ := hseq
    subst hs
    rw [List.nil_append, ← ho, List.nil_append]
  | cons p rest ih =>
    rw [List.cons_append]
    rcases hg : get_image env p w h st with ⟨r1, o1, s1⟩
    cases r1 with
    | error f1 =>
      simp only [get_images_seq, hg] at hseq
      exact absurd (congrArg (fun t => t.1) hseq) (by simp)
    | ok u1 =>
      simp only [get_images_seq, hg] at hseq ⊢
      rcases hs : get_images_seq env w h rest s1 with ⟨r2, o2, s2⟩
      rw [hs] at hseq
      simp only [Prod.mk.injEq] at hseq
      obtain ⟨hr2, ho, hs2⟩ := hseq
      have hrest : get_images_seq env w h rest s1 = (.ok u, o2, s) := by
        rw [hs, hr2, hs2]
      rw [ih s1 o2 hrest, ← ho, List.append_assoc]

/-- Under the canonical worker schedule, a successful sequential run over
the concatenation of the chunks is exactly a successful dispatcher
gather. -/
theorem processChunks_of_seq_ok (env : Env) (w h : Nat)
    (cs : List (List String)) (st : ServerState) (u : Unit) (o : List Nat)
    (s : ServerState)
    (hseq : get_images_seq env w h cs.flatten st = (.ok u, o, s)) :
    processChunks env w h cs st = (.ok (), o, s) := by
  induction cs generalizing st o with
  | nil =>
    simp only [List.flatten_nil, get_images_seq, Prod.mk.injEq] at hseq
    obtain ⟨-, ho, hs⟩ := hseq
    subst hs
    simp only [processChunks, ← ho]
  | cons c rest ih =>
    rw [List.flatten_cons] at hseq
    rcases h1 : get_images_seq env w h c st with ⟨r1, o1, s1⟩
    cases r1 with
    | error f =>
      rw [get_images_seq_append_err env w h c rest.flatten st f o1 s1 h1] at hseq
      exact absurd (congrArg (fun t => t.1) hseq) (by simp)
    | ok u1 =>
      rw [get_images_seq_append_ok env w h c rest.flatten st u1 o1 s1 h1] at hseq
      rcases h2 : get_images_seq env w h rest.flatten s1 with ⟨r2, o2, s2⟩
      rw [h2] at hseq
      simp only [Prod.mk.injEq] at hseq
      obtain ⟨hr2, ho, hs2⟩ := hseq
      have hrest : get_images_seq env w h rest.flatten s1 = (.ok u, o2, s) := by
        rw [h2, hr2, hs2]
      simp only [processChunks, h1, ih s1 o2 hrest, ← ho]

/-! ### Fingerprint-set preservation by the single-image pipeline -/

theorem cache_img_fingerprints (availMem : Nat) (p : String) (b : List Nat)
    (st : ServerState) :
    ((cache_img availMem p b st).2).fingerprints = st.fingerprints := by
  unfold cache_img get_disk_cache_path
  by_cases hmem : availMem / 1000000000 < MIN_AVAILABLE_MEMORY
  · rw [if_pos hmem]
    cases st.cacheDir with
    | none => rfl
    | some dir => rfl
  · rw [if_neg hmem]

theorem get_image_fingerprints (env : Env) (p : String) (w h : Nat)
    (st : ServerState) :
    ((get_image env p w h st).2.2).fingerprints = st.fingerprints := by
  unfold get_image
  cases hmiss : get_from_cache p st with
  | error f => rfl
  | ok ob =>
    cases ob with
    | some b => rfl
    | none =>
      cases hfet : fetch_raw env p st with
      | error f => rfl
      | ok raw =>
        cases hdec : env.decode raw with
        | error f => simp [hdec]
        | ok img0 =>
          simp only [hdec]
          cases henc : env.encodeBmp (if img0.width ≠ w || img0.height ≠ h then
              env.thumbnailExact img0 w h else img0) with
          | error f => simp [henc]
          | ok bmp =>
            simp only [henc]
            rcases hc : cache_img env.availMem p bmp st with ⟨rc, sc⟩
            have hfp : sc.fingerprints = st.fingerprints := by
              have h0 := cache_img_fingerprints env.availMem p bmp st
              rw [hc] at h0
              exact h0
            cases rc with
            | error f => simp [hc, hfp]
            | ok u => simp [hc, hfp]

theorem get_images_seq_fingerprints (env : Env) (w h : Nat)
    (paths : List String) (st : ServerState) :
    ((get_images_seq env w h paths st).2.2).fingerprints = st.fingerprints := by
  induction paths generalizing st with
  | nil => rfl
  | cons p rest ih =>
    rcases hg : get_image env p w h st with ⟨r1, o1, s1⟩
    have h1 : s1.fingerprints = st.fingerprints := by
      have := get_image_fingerprints env p w h st
      rw [hg] at this
      exact this
    cases r1 with
    | error f => simp only [get_images_seq, hg]; exact h1
    | ok u =>
      simp only [get_images_seq, hg]
      rcases hs : get_images_seq env w h rest s1 with ⟨r2, o2, s2⟩
      have h2 := ih s1
      rw [hs] at h2
      simpa using h2.trans h1

/-! ### Claim C1 — the batch dispatcher refines the sequential pipeline -/

/-- Counterexample to claim C1 as stated: for the perfectly processable
two-path batch `["a", "b"]` on a fresh configured server, the sequential
single-image pipeline succeeds and writes two frames, but `gets_images`
writes nothing — it panics in `paths.chunks(2 / 12) = paths.chunks(0)` —
so the batch response does not equal the concatenation of the per-image
`get` frames. -/
theorem gets_images_small_batch_not_concat :
    (gets_images testEnv 5 5 ["a", "b"] st0).2.1 ≠
      (get_images_seq testEnv 5 5 ["a", "b"] st0).2.1 ∧
    (get_images_seq testEnv 5 5 ["a", "b"] st0).1 = .ok () ∧
    (gets_images testEnv 5 5 ["a", "b"] st0).1 =
      .error (.fatal "chunk size must not be zero") := by
  refine ⟨by decide, rfl, rfl⟩

/-- Claim C1 as amended: whenever the batch either has at least
`GETS_THREAD_COUNT` paths (so the chunk size is non-zero and the
dispatcher does not panic) or its fingerprint is already recorded, and
the sequential single-image pipeline succeeds on the batch, `gets_images`
succeeds and writes exactly the same byte sequence — the concatenation,
in path order, of the per-image frames `get` would produce.  Worker
execution is modelled by its canonical deterministic schedule (chunk `i`
runs before chunk `i + 1`), which is the observational content of the
claim. -/
theorem gets_images_refines_sequential_get (env : Env) (w h : Nat)
    (paths : List String) (st : ServerState) (o : List Nat) (s : ServerState)
    (hbig : GETS_THREAD_COUNT ≤ paths.length ∨ String.join paths ∈ st.fingerprints)
    (hseq : get_images_seq env w h paths st = (.ok (), o, s)) :
    (gets_images env w h paths st).1 = .ok () ∧
    (gets_images env w h paths st).2.1 = o := by
  by_cases hf : String.join paths ∈ st.fingerprints
  · unfold gets_images
    rw [if_pos hf, hseq]
    exact ⟨rfl, rfl⟩
  · have hlen : GETS_THREAD_COUNT ≤ paths.length := hbig.resolve_right hf
    have hchunks := gets_thread_chunks_isSome paths hlen
    have hflat := gets_thread_chunks_flatten paths _ hchunks
    have hpc := processChunks_of_seq_ok env w h
      (foldChunks (chunksFuel paths.length
        (paths.length / GETS_THREAD_COUNT - 1) paths)) st () o s
      (by rw [hflat]; exact hseq)
    unfold gets_images
    rw [if_neg hf]
    simp [hchunks, hpc]

/-- Witness for the amended C1: a 12-path batch on a fresh configured
server; the per-image pipeline succeeds on each path, and the dispatcher
writes exactly the sequential pipeline's bytes. -/
theorem gets_images_refines_sequential_get_witness :
    (gets_images testEnv 5 5
      ["a", "a", "a", "a", "a", "a", "a", "a", "a", "a", "a", "a"] st0).1 = .ok () ∧
    (gets_images testEnv 5 5
      ["a", "a", "a", "a", "a", "a", "a", "a", "a", "a", "a", "a"] st0).2.1 =
      (get_images_seq testEnv 5 5
        ["a", "a", "a", "a", "a", "a", "a", "a", "a", "a", "a", "a"] st0).2.1 :=
  gets_images_refines_sequential_get testEnv 5 5
    ["a", "a", "a", "a", "a", "a", "a", "a", "a", "a", "a", "a"] st0 _ _
    (Or.inl (by decide)) rfl

/-! ### Claim C5 — fingerprint recording and short-circuit -/

/-- Claim C5: a successful `gets` leaves the batch fingerprint
(`paths.join("")`, no separator) recorded; a subsequent `gets` with the
same paths in the same order sends no chunk to any worker and is exactly
the sequential single-image pipeline run directly on the stream. -/
theorem gets_fingerprint_short_circuit (env : Env) (w h : Nat)
    (paths : List String) (st : ServerState) (o : List Nat) (st' : ServerState)
    (hok : gets_images env w h paths st = (.ok (), o, st')) :
    String.join paths ∈ st'.fingerprints ∧
    gets_sent_chunks paths st' = [] ∧
    gets_images env w h paths st' = get_images_seq env w h paths st' := by
  have hmem : String.join paths ∈ st'.fingerprints := by
    unfold gets_images at hok
    by_cases hf : String.join paths ∈ st.fingerprints
    · rw [if_pos hf] at hok
      have h2 := congrArg (fun t => t.2.2) hok
      simp only [] at h2
      have h3 := get_images_seq_fingerprints env w h paths st
      rw [h2] at h3
      rw [h3]
      exact hf
    · rw [if_neg hf] at hok
      cases hc : gets_thread_chunks paths with
      | none =>
        simp only [hc] at hok
        exact absurd (congrArg (fun t => t.1) hok) (by simp)
      | some cs =>
        simp only [hc] at hok
        rcases hp : processChunks env w h cs st with ⟨r, o2, s2⟩
        rw [hp] at hok
        cases r with
        | error e => exact absurd (congrArg (fun t => t.1) hok) (by simp)
        | ok u =>
          have h2 := congrArg (fun t => t.2.2) hok
          simp only [] at h2
          rw [← h2]
          exact mem_setInsert _ _
  refine ⟨hmem, ?_, ?_⟩
  · unfold gets_sent_chunks
    rw [if_pos hmem]
  · unfold gets_images
    rw [if_pos hmem]

/-- Witness for C5: a `gets` on a state whose fingerprint for `["a"]` is
already recorded (and whose cache holds `"a"`) succeeds; the theorem
yields the recorded fingerprint, the empty chunk dispatch, and the
short-circuit equality, at this concrete state. -/
theorem gets_fingerprint_short_circuit_witness :
    String.join ["a"] ∈ ({ st0 with
        fingerprints := ["a"],
        cache := [("a", CacheType.InMemory [7])] } : ServerState).fingerprints ∧
    gets_sent_chunks ["a"] { st0 with
        fingerprints := ["a"],
        cache := [("a", CacheType.InMemory [7])] } = [] ∧
    gets_images testEnv 5 5 ["a"] { st0 with
        fingerprints := ["a"],
        cache := [("a", CacheType.InMemory [7])] } =
      get_images_seq testEnv 5 5 ["a"] { st0 with
        fingerprints := ["a"],
        cache := [("a", CacheType.InMemory [7])] } :=
  gets_fingerprint_short_circuit testEnv 5 5 ["a"] { st0 with
      fingerprints := ["a"],
      cache := [("a", CacheType.InMemory [7])] } [0, 0, 0, 1, 7] _ rfl

end Pictocrab
